import Mathlib

/-!
Verification of the position-transform algebra and pending-text-diff layer of
the slate repository, via a shallow embedding of the TypeScript sources:

* `src/packages/slate/src/interfaces/path.ts`   (embedded with `main` prefix)
* `src/unnamed/part_000`  (a second copy of the Path algebra; `part` prefix)
* `src/unnamed/part_001`  (Point algebra)
* `src/packages/slate-dom/src/utils/diff-text.ts`

Paths are lists of JavaScript numbers, modelled as `Int` (all arithmetic the
sources perform on in-range indices is integer arithmetic).  Strings are
`List Char`.  A thrown JavaScript exception is modelled by the `ExcOr.exc`
constructor; the JavaScript `null` result is `Option.none` inside `ExcOr.ok`.
-/

/-- A path: list of child indices from the root (`export type Path = number[]`). -/
abbrev SlatePath := List Int

/-- The `affinity` option (`TextDirection | null`, default `'forward'`). -/
inductive Affinity
  | forward
  | backward
  | null
deriving DecidableEq

/-- The five path-transforming structural operation kinds.  Each carries its
anchor `path`; `merge_node`/`split_node` carry `position`, `move_node` carries
`newPath`. -/
inductive PathOp
  | insert_node (path : SlatePath)
  | remove_node (path : SlatePath)
  | merge_node (path : SlatePath) (position : Int)
  | split_node (path : SlatePath) (position : Int)
  | move_node (path : SlatePath) (newPath : SlatePath)
deriving DecidableEq

/-- `operation.path` of a path-transforming operation. -/
def PathOp.anchor : PathOp → SlatePath
  | .insert_node p => p
  | .remove_node p => p
  | .merge_node p _ => p
  | .split_node p _ => p
  | .move_node p _ => p

/-- Whether the operation is a `move_node` (used by the early-exit test). -/
def PathOp.isMove : PathOp → Bool
  | .move_node _ _ => true
  | _ => false

/-- `newPath` of a `move_node`; dummy `[]` otherwise (the sources read
`operation.newPath` only behind a `type === 'move_node'` test). -/
def PathOp.newP : PathOp → SlatePath
  | .move_node _ np => np
  | _ => []

/-- Result of a JavaScript function that can throw: `exc` models a thrown
`Error`, `ok` a normal return. -/
inductive ExcOr (α : Type)
  | exc
  | ok (a : α)
deriving DecidableEq

/-- `Path.commonDepth` (both copies): length of the longest common prefix,
computed by the `while (i < min && path[i] === another[i]) i++` loop. -/
def commonDepth : SlatePath → SlatePath → Nat
  | a :: as, b :: bs => if a = b then commonDepth as bs + 1 else 0
  | _, _ => 0

/-- `Path.equals` (`path.length === another.length && path.every(...)`). -/
def pathEquals : SlatePath → SlatePath → Bool
  | [], [] => true
  | a :: as, b :: bs => a = b && pathEquals as bs
  | _, _ => false

/-- JavaScript `a[i] < b[j]` where either side may be out of range
(`undefined`): any comparison with `undefined` is `false`. -/
def jsLtOpt : Option Int → Option Int → Bool
  | some a, some b => a < b
  | _, _ => false

/-- JavaScript `a[i] >= v` where `a[i]` may be `undefined`: `false` then. -/
def jsGeOpt : Option Int → Int → Bool
  | some a, v => v ≤ a
  | none, _ => false

/-- JavaScript `outPath[i] = f(outPath[i])` (e.g. `+= 1`) on an `Int` list.
Negative indices set a plain property and leave the array's elements alone.
Every such write performed by `path.ts` is at a negative or in-range index
(the out-of-range write in `part_000`'s `merge_node` branch is modelled
separately, on `JSNum` lists, by `jsModIdx`). -/
def modIdx (l : List Int) (i : Int) (f : Int → Int) : List Int :=
  if h : 0 ≤ i ∧ i.toNat < l.length then l.set i.toNat (f (l.get ⟨i.toNat, h.2⟩))
  else l

/-- A JavaScript number that may be `NaN` (`none`); `NaN` arises from
arithmetic on `undefined` array slots. -/
abbrev JSNum := Option Int

/-- `NaN`-propagating addition of a constant. -/
def jsAdd (a : JSNum) (k : Int) : JSNum := a.map (· + k)

/-- `outPath[i] = f(outPath[i])` on a `JSNum` list, with full JavaScript array
semantics: negative indices do not touch the elements, writes past the end
extend the array (the skipped holes read back as `undefined`, and `f` applied
to the `undefined` slot yields `NaN` for arithmetic updates). -/
def jsModIdx (l : List JSNum) (i : Int) (f : JSNum → JSNum) : List JSNum :=
  if i < 0 then l
  else if h : i.toNat < l.length then l.set i.toNat (f (l.get ⟨i.toNat, h⟩))
  else l ++ List.replicate (i.toNat - l.length) none ++ [f none]

/-- `outPath.splice(0, n, ...repl)`: replace the first `n` elements. -/
def spliceHead (l : List α) (n : Nat) (repl : List α) : List α :=
  repl ++ l.drop n

/-- `Path.transform` of `src/packages/slate/src/interfaces/path.ts`. -/
def mainTransform (path : SlatePath) (op : PathOp) (aff : Affinity) :
    Option SlatePath :=
  let opp := op.anchor
  -- PERF: Exit early if change is only deeper in the tree
  if opp.length > path.length ∧ (op.isMove = false ∨ op.newP.length > path.length)
  then some path
  else
    let cd := commonDepth path opp
    let opDepth : Int := (opp.length : Int) - 1
    let opEqOrAbovePath := cd = opp.length
    let opEqualPath := cd = path.length
    let opEndsBeforePath :=
      (cd : Int) = opDepth ∧ jsLtOpt opp[cd]? path[cd]? = true
    -- PERF: Exit early if operation does not affect path
    if ¬opEqOrAbovePath ∧ ¬opEndsBeforePath ∧ op.isMove = false then some path
    else
      match op with
      | .insert_node _ =>
        some (if opEqOrAbovePath ∨ opEndsBeforePath
              then modIdx path opDepth (· + 1) else path)
      | .remove_node _ =>
        if opEqOrAbovePath then none
        else if opEndsBeforePath then some (modIdx path opDepth (· - 1))
        else some path
      | .merge_node _ position =>
        if opEqualPath ∨ opEndsBeforePath then
          some (modIdx path opDepth (· - 1))
        else if opEqOrAbovePath then
          some (modIdx (modIdx path opDepth (· - 1)) (opp.length : Int) (· + position))
        else some path
      | .split_node _ position =>
        if opEqualPath then
          match aff with
          | .forward => some (modIdx path opDepth (· + 1))
          | .backward => some path
          | .null => none
        else if opEndsBeforePath then some (modIdx path opDepth (· + 1))
        else if opEqOrAbovePath ∧ jsGeOpt path[cd]? position then
          some (modIdx (modIdx path opDepth (· + 1)) (opp.length : Int) (· - position))
        else some path
      | .move_node _ newOp =>
        if opEqOrAbovePath then
          -- we are at or inside the node being moved
          let cdBetween := commonDepth opp newOp
          if cdBetween = opp.length then some path
          else
            let spliced := spliceHead path opp.length newOp
            let opEndsBeforeNewOp :=
              (cdBetween : Int) = opDepth ∧
                jsLtOpt opp[cdBetween]? newOp[cdBetween]? = true
            if opEndsBeforeNewOp ∧ opp.length < newOp.length then
              some (modIdx spliced opDepth (· - 1))
            else some spliced
        else
          let newCd := commonDepth path newOp
          let newOpDepth : Int := (newOp.length : Int) - 1
          let newOpEqOrAbovePath := newCd = newOp.length
          let newOpEndsBeforePath :=
            (newCd : Int) = newOpDepth ∧ jsLtOpt newOp[newCd]? path[newCd]? = true
          if opEndsBeforePath then
            if newOpEndsBeforePath ∧ opDepth = newOpDepth then some path
            else if (newOpEqOrAbovePath ∨ newOpEndsBeforePath) ∧ ¬opDepth = newOpDepth then
              some (modIdx (modIdx path opDepth (· - 1)) newOpDepth (· + 1))
            else some (modIdx path opDepth (· - 1))
          else if newOpEqOrAbovePath ∨ newOpEndsBeforePath then
            some (modIdx path newOpDepth (· + 1))
          else some path

/-- `Path.transform` of `src/unnamed/part_000`.  Its output is a `JSNum` list
because the `merge_node` branch can write one slot past the end of the array,
appending `NaN`. -/
def partTransform (path : SlatePath) (op : PathOp) (aff : Affinity) :
    Option (List JSNum) :=
  let opp := op.anchor
  -- PERF: Exit early if unchangeable or change is only deeper in the tree
  if opp.length > path.length ∧ (op.isMove = false ∨ op.newP.length > path.length)
  then some (path.map some)
  else
    let cd := commonDepth path opp
    let opDepth : Int := (opp.length : Int) - 1
    let opEqOrAbovePath := cd = opp.length
    let opEqualPath := cd = path.length
    let opEndsBeforePath :=
      (cd : Int) = opDepth ∧ jsLtOpt opp[cd]? path[cd]? = true
    let outPath : List JSNum := path.map some
    match op with
    | .insert_node _ =>
      some (if opEqOrAbovePath ∨ opEndsBeforePath
            then jsModIdx outPath opDepth (jsAdd · 1) else outPath)
    | .remove_node _ =>
      if opEqOrAbovePath then none
      else if opEndsBeforePath then some (jsModIdx outPath opDepth (jsAdd · (-1)))
      else some outPath
    | .merge_node _ position =>
      if opEqOrAbovePath ∨ opEndsBeforePath then
        some (jsModIdx (jsModIdx outPath opDepth (jsAdd · (-1)))
                (opp.length : Int) (jsAdd · position))
      else if opEqOrAbovePath then
        -- unreachable in the source as well (shadowed by the branch above)
        some (jsModIdx outPath opDepth (jsAdd · (-1)))
      else some outPath
    | .split_node _ position =>
      if opEqualPath then
        match aff with
        | .forward => some (jsModIdx outPath opDepth (jsAdd · 1))
        | .backward => some outPath
        | .null => none
      else if opEqOrAbovePath then
        if jsGeOpt path[cd]? position then
          some (jsModIdx (jsModIdx outPath opDepth (jsAdd · 1))
                  (opp.length : Int) (jsAdd · (-position)))
        else some outPath
      else if opEndsBeforePath then some (jsModIdx outPath opDepth (jsAdd · 1))
      else some outPath
    | .move_node _ newOp =>
      if opEqOrAbovePath then
        let cdBetween := commonDepth opp newOp
        if cdBetween = newOp.length then some outPath
        else
          let spliced := spliceHead outPath cd (newOp.map some)
          let opEndsBeforeNewOp :=
            (cdBetween : Int) = opDepth ∧
              jsLtOpt opp[cdBetween]? newOp[cdBetween]? = true
          if opEndsBeforeNewOp ∧ opp.length < newOp.length then
            some (jsModIdx spliced opDepth (jsAdd · (-1)))
          else some spliced
      else
        let newCd := commonDepth path newOp
        let newOpDepth : Int := (newOp.length : Int) - 1
        let newOpEqOrAbovePath := newCd = newOp.length
        let newOpEndsBeforePath :=
          (newCd : Int) = newOpDepth ∧ jsLtOpt newOp[newCd]? path[newCd]? = true
        if newOpEqOrAbovePath ∨ newOpEndsBeforePath then
          if opEndsBeforePath then
            if opDepth = newOpDepth then some outPath
            else
              some (jsModIdx (jsModIdx outPath opDepth (jsAdd · (-1)))
                      newOpDepth (jsAdd · 1))
          else some (jsModIdx outPath newOpDepth (jsAdd · 1))
        else if opEndsBeforePath then
          some (jsModIdx outPath opDepth (jsAdd · (-1)))
        else some outPath

/-- `Path.next` of `path.ts`: `path.slice(0, -1).concat(last + 1)`, throwing on
the root path. -/
def mainNext (path : SlatePath) : Option SlatePath :=
  if path.length = 0 then none
  else some (path.dropLast ++ [path.getD (path.length - 1) 0 + 1])

/-- `Path.previous` of `path.ts`: decrements the last index, throwing on the
root path or on a first child. -/
def mainPrevious (path : SlatePath) : Option SlatePath :=
  if path.length = 0 then none
  else
    let last := path.getD (path.length - 1) 0
    if last ≤ 0 then none
    else some (path.dropLast ++ [last - 1])

/-- `Path.previous` of `src/unnamed/part_000`: after the same two guards it
copies the path and runs `out[path.length - 1] = last` — storing the last
index back *unchanged*. -/
def partPrevious (path : SlatePath) : Option SlatePath :=
  if path.length = 0 then none
  else
    let last := path.getD (path.length - 1) 0
    if last ≤ 0 then none
    else some (path.set (path.length - 1) last)

/-- `Path.compare` (lexicographic; ancestors compare equal). -/
def pathCompare : SlatePath → SlatePath → Int
  | a :: as, b :: bs => if a < b then -1 else if b < a then 1 else pathCompare as bs
  | _, _ => 0

/-- `Path.isDescendant`: `path.length > another.length && compare === 0`. -/
def pathIsDescendant (path another : SlatePath) : Bool :=
  another.length < path.length && pathCompare path another = 0

/-- A point: `{path, offset}`. -/
structure SlatePoint where
  path : SlatePath
  offset : Int
deriving DecidableEq

/-- `Point.equals` of `src/unnamed/part_001` (offset first, then `Path.equals`). -/
def pointEquals (p q : SlatePoint) : Bool :=
  p.offset = q.offset && pathEquals p.path q.path

/-- A range: `{anchor, focus}`. -/
structure SlateRange where
  anchor : SlatePoint
  focus : SlatePoint
deriving DecidableEq

/-- Modelled from the spec: `Range.isCollapsed` (the `slate` package's range.ts
is not among the provided sources) — a range is collapsed when its anchor and
focus points are equal. -/
def rangeIsCollapsed (r : SlateRange) : Bool := pointEquals r.anchor r.focus

/-- The point/range-transforming operations: the five structural kinds plus
`insert_text` / `remove_text` (which carry a `path`, an `offset` and the
inserted/removed `text`). -/
inductive PointOp
  | insert_text (path : SlatePath) (offset : Int) (text : List Char)
  | remove_text (path : SlatePath) (offset : Int) (text : List Char)
  | structural (op : PathOp)
deriving DecidableEq

/-- `operation.path`. -/
def PointOp.opPath : PointOp → SlatePath
  | .insert_text p _ _ => p
  | .remove_text p _ _ => p
  | .structural op => op.anchor

/-- `Operation.transformsPaths` / `Path.operationCanTransformPath`: true for
exactly the five structural kinds (per the switch in `src/unnamed/part_000`). -/
def transformsPaths : PointOp → Bool
  | .structural _ => true
  | _ => false

/-- The code after the offset `switch` in `Point.transform`
(`src/unnamed/part_001`): delegate to `Path.transform` for path-affecting
operations, keep the offset. -/
def pointTransformTail (point : SlatePoint) (op : PointOp) (aff : Affinity) :
    ExcOr (Option SlatePoint) :=
  match op with
  | .structural pop =>
    match mainTransform point.path pop aff with
    | none => .ok none
    | some q => .ok (some ⟨q, point.offset⟩)
  | _ => .ok (some point)

/-- `Point.transform` of `src/unnamed/part_001`, wired to the `slate`
package's Path algebra (`mainPrevious`/`mainNext`/`mainTransform`); the
claims settled through it do not depend on which of the two Path copies is
linked in. -/
def pointTransform (point : SlatePoint) (op : PointOp) (aff : Affinity) :
    ExcOr (Option SlatePoint) :=
  if pathEquals op.opPath point.path then
    match op with
    | .insert_text _ o txt =>
      if o < point.offset ∨ (o = point.offset ∧ aff = .forward) then
        .ok (some ⟨point.path, point.offset + txt.length⟩)
      else .ok (some point)
    | .structural (.merge_node _ position) =>
      match mainPrevious point.path with
      | none => .exc
      | some pp => .ok (some ⟨pp, point.offset + position⟩)
    | .remove_text _ o txt =>
      if o < point.offset then
        .ok (some ⟨point.path, max o (point.offset - txt.length)⟩)
      else .ok (some point)
    | .structural (.split_node _ position) =>
      if position = point.offset ∧ aff = .null then .ok none
      else if position < point.offset ∨ (position = point.offset ∧ aff = .forward) then
        match mainNext point.path with
        | none => .exc
        | some np => .ok (some ⟨np, point.offset - position⟩)
      else .ok (some point)
    | _ => pointTransformTail point op aff
  else pointTransformTail point op aff

/-- A `StringDiff` `{start, end, text}`; the source's `end` field is called
`stop` here because `end` is reserved in Lean. -/
structure StringDiff where
  start : Int
  stop : Int
  text : List Char
deriving DecidableEq

/-- JavaScript `String.prototype.slice` on a list: negative indices count
from the end, everything is clamped to `[0, length]`. -/
def jsSlice (l : List α) (s e : Int) : List α :=
  let n : Int := l.length
  let s' : Int := if s < 0 then max (n + s) 0 else min s n
  let e' : Int := if e < 0 then max (n + e) 0 else min e n
  (l.take e'.toNat).drop s'.toNat

/-- One-argument `slice(s)`. -/
def jsSliceFrom (l : List α) (s : Int) : List α := jsSlice l s l.length

/-- `applyStringDiff(text, ...diffs)`: fold each diff over the accumulated
string, replacing `[start, end)` by the diff's text. -/
def applyStringDiff (text : List Char) (diffs : List StringDiff) : List Char :=
  diffs.foldl (fun t d => jsSlice t 0 d.start ++ d.text ++ jsSliceFrom t d.stop) text

/-- `longestCommonPrefixLength(str, another)`. -/
def longestCommonPrefixLength : List Char → List Char → Nat
  | a :: as, b :: bs => if a = b then longestCommonPrefixLength as bs + 1 else 0
  | _, _ => 0

/-- The loop of `longestCommonSuffixLength`, run on the reversed strings with
the `max` cap folded into the iteration bound. -/
def commonPrefixCapped : List Char → List Char → Nat → Nat
  | a :: as, b :: bs, cap + 1 =>
    if a = b then commonPrefixCapped as bs cap + 1 else 0
  | _, _, _ => 0

/-- `longestCommonSuffixLength(str, another, max)`: compares the two strings
from their ends, up to `min(str.length, another.length, max)` characters. -/
def longestCommonSuffixLength (s t : List Char) (mx : Nat) : Nat :=
  commonPrefixCapped s.reverse t.reverse mx

/-- `normalizeStringDiff(targetText, diff)`: strip the common prefix and the
(capped) common suffix of the removed text and the replacement text; `null`
when the remaining diff is a no-op. -/
def normalizeStringDiff (targetText : List Char) (d : StringDiff) :
    Option StringDiff :=
  let removedText := jsSlice targetText d.start d.stop
  let pl := longestCommonPrefixLength removedText d.text
  let mx := min (removedText.length - pl) (d.text.length - pl)
  let sl := longestCommonSuffixLength removedText d.text mx
  let normalized : StringDiff :=
    { start := d.start + pl
      stop := d.stop - sl
      text := jsSlice d.text (pl : Int) ((d.text.length - sl : Nat) : Int) }
  if normalized.start = normalized.stop ∧ normalized.text.length = 0 then none
  else some normalized

/-- `mergeStringDiffs(targetText, a, b)`: one diff equivalent to applying `a`
then `b`, expressed against `targetText`, then normalized. -/
def mergeStringDiffs (targetText : List Char) (a b : StringDiff) :
    Option StringDiff :=
  let start := min a.start b.start
  let overlap := max 0 (min (a.start + (a.text.length : Int)) b.stop - b.start)
  let applied := applyStringDiff targetText [a, b]
  let sliceEnd := max (b.start + (b.text.length : Int))
    (a.start + (a.text.length : Int) +
      (if b.start < a.start + (a.text.length : Int) then (b.text.length : Int) else 0)
      - overlap)
  let text := jsSlice applied start sliceEnd
  let stop := max a.stop (b.stop - (a.text.length : Int) + (a.stop - a.start))
  normalizeStringDiff targetText { start := start, stop := stop, text := text }

/-- A pending `TextDiff` `{id, path, diff}`. -/
structure TextDiff where
  id : Int
  path : SlatePath
  diff : StringDiff
deriving DecidableEq

/-- The code after the same-path `switch` in `transformTextDiff`: return the
diff unchanged for non-path-affecting operations, otherwise rebase its path
(`null` destroys the diff). -/
def transformTextDiffTail (textDiff : TextDiff) (op : PointOp) :
    ExcOr (Option TextDiff) :=
  match op with
  | .structural pop =>
    match mainTransform textDiff.path pop .forward with
    | none => .ok none
    | some newPath => .ok (some ⟨textDiff.id, newPath, textDiff.diff⟩)
  | _ => .ok (some textDiff)

/-- `transformTextDiff(textDiff, op)` of `diff-text.ts`. -/
def transformTextDiff (textDiff : TextDiff) (op : PointOp) :
    ExcOr (Option TextDiff) :=
  let path := textDiff.path
  let d := textDiff.diff
  let id := textDiff.id
  if pathEquals op.opPath path then
    match op with
    | .insert_text _ off txt =>
      let len : Int := txt.length
      if off ≤ d.start then
        .ok (some ⟨id, path, ⟨d.start + len, d.stop + len, d.text⟩⟩)
      else if off < d.stop then
        .ok (some ⟨id, path, ⟨d.start, d.stop + len, d.text⟩⟩)
      else .ok (some textDiff)
    | .remove_text _ off txt =>
      let len : Int := txt.length
      if off + len ≤ d.start then
        .ok (some ⟨id, path, ⟨d.start - len, d.stop - len, d.text⟩⟩)
      else if off < d.stop then
        .ok (some ⟨id, path, ⟨d.start, d.stop - len, d.text⟩⟩)
      else .ok (some textDiff)
    | .structural (.split_node _ position) =>
      if position ≤ d.start then
        match mainNext path with
        | none => .exc
        | some np =>
          .ok (some ⟨id, np, ⟨d.start - position, d.stop - position, d.text⟩⟩)
      else if position < d.stop then
        -- its possible for the diff to span across the split, in that case we
        -- clamp the diff to the end of the first node (known source bug: the
        -- latter part is dropped)
        .ok (some ⟨id, path, ⟨d.start, min position d.stop, d.text⟩⟩)
      else .ok (some textDiff)
    | .structural (.merge_node mpath mposition) =>
      -- `Path.transform(path, op)!`: a merge_node rebase never returns null,
      -- so the non-null assertion is sound; `.getD []` is never taken.
      .ok (some ⟨id,
        (mainTransform path (.merge_node mpath mposition) .forward).getD [],
        ⟨d.start + mposition, d.stop + mposition, d.text⟩⟩)
    | _ => transformTextDiffTail textDiff op
  else transformTextDiffTail textDiff op

/-- The `split_node` special case inside `transformPendingPoint`'s
after-the-diff branch. -/
def pendingSplitGuard (op : PointOp) (pointPath : SlatePath)
    (anchorOffset dstart : Int) : Bool :=
  match op with
  | .structural (.split_node sp pos) =>
    pathEquals sp pointPath && decide (anchorOffset < pos) && decide (dstart < pos)
  | _ => false

/-- `transformPendingPoint(editor, point, op)`; the editor's pending-diff
list (`EDITOR_TO_PENDING_DIFFS.get(editor)`) is passed explicitly. -/
def transformPendingPoint (pendingDiffs : List TextDiff) (point : SlatePoint)
    (op : PointOp) : ExcOr (Option SlatePoint) :=
  match pendingDiffs.find? (fun td => pathEquals td.path point.path) with
  | none => pointTransform point op .backward
  | some textDiff =>
    if point.offset ≤ textDiff.diff.start then pointTransform point op .backward
    else
      let diff := textDiff.diff
      if point.offset ≤ diff.start + (diff.text.length : Int) then
        -- Point references location inside the diff
        let anchor : SlatePoint := ⟨point.path, diff.start⟩
        match pointTransform anchor op .backward with
        | .exc => .exc
        | .ok none => .ok none
        | .ok (some tr) =>
          .ok (some ⟨tr.path, tr.offset + point.offset - diff.start⟩)
      else
        -- Point references location after the diff
        let anchor : SlatePoint :=
          ⟨point.path, point.offset - (diff.text.length : Int) + diff.stop - diff.start⟩
        match pointTransform anchor op .backward with
        | .exc => .exc
        | .ok none => .ok none
        | .ok (some tr) =>
          if pendingSplitGuard op point.path anchor.offset diff.start then
            .ok (some tr)
          else
            .ok (some ⟨tr.path, tr.offset + (diff.text.length : Int) - diff.stop + diff.start⟩)

/-- `transformPendingRange(editor, range, op)`. -/
def transformPendingRange (pendingDiffs : List TextDiff) (range : SlateRange)
    (op : PointOp) : ExcOr (Option SlateRange) :=
  match transformPendingPoint pendingDiffs range.anchor op with
  | .exc => .exc
  | .ok none => .ok none
  | .ok (some anchor) =>
    if rangeIsCollapsed range then .ok (some ⟨anchor, anchor⟩)
    else
      match transformPendingPoint pendingDiffs range.focus op with
      | .exc => .exc
      | .ok none => .ok none
      | .ok (some focus) => .ok (some ⟨anchor, focus⟩)

/-- The document-tree collaborator (spec section 6): pure queries against an
immutable snapshot, as used by `normalizePoint`.  `textAt` is `Node.get`
restricted to text leaves (some text iff the node exists and is a text leaf),
`blockAbove` is `Editor.above` with the block match, and `nextText` is
`Editor.next` with the `Node.isText` match. -/
structure EditorModel where
  hasPath : SlatePath → Bool
  textAt : SlatePath → Option (List Char)
  blockAbove : SlatePath → Option SlatePath
  nextText : SlatePath → Option (SlatePath × List Char)

/-- The walk loop of `normalizePoint`.  A fuel argument bounds the recursion;
the source's `while` loop fails to terminate only when it keeps stepping
through zero-length leaves without decreasing `offset`, and the fuel passed by
`normalizePoint` is generous enough for every terminating run. -/
def normalizePointAux (ed : EditorModel) (blockPath : SlatePath) :
    Nat → SlatePath → List Char → Int → Option SlatePoint
  | fuel, path, leafText, offset =>
    if offset ≤ (leafText.length : Int) then some ⟨path, offset⟩
    else
      match ed.nextText path with
      | none => none
      | some (p2, t2) =>
        if pathIsDescendant p2 blockPath = false then none
        else
          match fuel with
          | 0 => none
          | f + 1 => normalizePointAux ed blockPath f p2 t2 (offset - leafText.length)

/-- `normalizePoint(editor, point)` of `diff-text.ts`. -/
def normalizePoint (ed : EditorModel) (point : SlatePoint) : Option SlatePoint :=
  if ed.hasPath point.path = false then none
  else
    match ed.textAt point.path with
    | none => none
    | some leafText =>
      match ed.blockAbove point.path with
      | none => none
      | some blockPath =>
        normalizePointAux ed blockPath (point.offset.toNat + 1) point.path
          leafText point.offset

/-- `normalizeRange(editor, range)` of `diff-text.ts`. -/
def normalizeRange (ed : EditorModel) (range : SlateRange) : Option SlateRange :=
  match normalizePoint ed range.anchor with
  | none => none
  | some anchor =>
    if rangeIsCollapsed range then some ⟨anchor, anchor⟩
    else
      match normalizePoint ed range.focus with
      | none => none
      | some focus => some ⟨anchor, focus⟩


/-- Whether the operation is a `merge_node`. -/
def PathOp.isMerge : PathOp → Bool
  | .merge_node _ _ => true
  | _ => false

/-- The condition "`opp` is an earlier sibling of `p` or of one of `p`'s
ancestors": both share the first `opp.length - 1` indices, and at depth
`opp.length - 1` both have an index with `opp`'s strictly smaller. -/
def earlierSibling (opp p : SlatePath) : Prop :=
  opp.take (opp.length - 1) = p.take (opp.length - 1) ∧
  jsLtOpt opp[opp.length - 1]? p[opp.length - 1]? = true

instance (opp p : SlatePath) : Decidable (earlierSibling opp p) := by
  unfold earlierSibling
  infer_instance

/-! ### Helper lemmas about the embedding primitives -/


theorem commonDepth_le_left : ∀ a b : SlatePath, commonDepth a b ≤ a.length := by
  intro a
  induction a with
  | nil => intro b; cases b <;> simp [commonDepth]
  | cons x xs ih =>
    intro b
    cases b with
    | nil => simp [commonDepth]
    | cons y ys =>
      simp only [commonDepth]
      split
      · simpa using ih ys
      · simp

theorem commonDepth_le_right : ∀ a b : SlatePath, commonDepth a b ≤ b.length := by
  intro a
  induction a with
  | nil => intro b; cases b <;> simp [commonDepth]
  | cons x xs ih =>
    intro b
    cases b with
    | nil => simp [commonDepth]
    | cons y ys =>
      simp only [commonDepth]
      split
      · simpa using ih ys
      · simp

theorem commonDepth_self : ∀ a : SlatePath, commonDepth a a = a.length := by
  intro a
  induction a with
  | nil => simp [commonDepth]
  | cons x xs ih => simp [commonDepth, ih]

theorem take_commonDepth_eq : ∀ a b : SlatePath, a.take (commonDepth a b) = b.take (commonDepth a b) := by
  intro a
  induction a with
  | nil => intro b; cases b <;> simp [commonDepth]
  | cons x xs ih =>
    intro b
    cases b with
    | nil => simp [commonDepth]
    | cons y ys =>
      simp only [commonDepth]
      split
      · rename_i h; simp [List.take_succ_cons, h, ih ys]
      · simp

theorem commonDepth_ge_of_take_eq : ∀ (a b : SlatePath) (n : Nat), n ≤ a.length → n ≤ b.length →
    a.take n = b.take n → n ≤ commonDepth a b := by
  intro a
  induction a with
  | nil => intro b n h1 _ _; simp at h1; omega
  | cons x xs ih =>
    intro b n h1 h2 h3
    cases b with
    | nil => simp at h2; omega
    | cons y ys =>
      cases n with
      | zero => omega
      | succ m =>
        simp only [List.take_succ_cons, List.cons.injEq] at h3
        simp only [commonDepth, h3.1, if_true]
        have := ih ys m (by simpa using h1) (by simpa using h2) h3.2
        omega

theorem commonDepth_comm : ∀ a b : SlatePath, commonDepth a b = commonDepth b a := by
  intro a
  induction a with
  | nil => intro b; cases b <;> simp [commonDepth]
  | cons x xs ih =>
    intro b
    cases b with
    | nil => simp [commonDepth]
    | cons y ys =>
      simp only [commonDepth]
      by_cases h : x = y
      · simp [h, ih ys]
      · have h2 : ¬ y = x := fun hh => h hh.symm
        simp [h, h2]

theorem modIdx_eq_set (l : List Int) (i : Int) (f : Int → Int) (h0 : 0 ≤ i)
    (h1 : i.toNat < l.length) :
    modIdx l i f = l.set i.toNat (f (l.getD i.toNat 0)) := by
  simp [modIdx, h0, h1, List.getD_eq_getElem, List.get_eq_getElem]

theorem modIdx_length (l : List Int) (i : Int) (f : Int → Int) :
    (modIdx l i f).length = l.length := by
  unfold modIdx
  split <;> simp

theorem modIdx_neg (l : List Int) (i : Int) (f : Int → Int) (h : i < 0) :
    modIdx l i f = l := by
  unfold modIdx
  split
  · omega
  · rfl

theorem jsModIdx_map_some (l : List Int) (i : Int) (f : Int → Int) (g : JSNum → JSNum)
    (hg : ∀ x, g (some x) = some (f x)) (h : i < 0 ∨ i.toNat < l.length) :
    jsModIdx (l.map some) i g = (modIdx l i f).map some := by
  rcases h with h | h
  · rw [modIdx_neg l i f h]
    simp [jsModIdx, h]
  · by_cases hn : i < 0
    · rw [modIdx_neg l i f hn]; simp [jsModIdx, hn]
    · have hlt : i.toNat < (l.map some).length := by simpa using h
      rw [modIdx_eq_set l i f (by omega) h]
      simp only [jsModIdx, hn, if_false, dif_pos hlt]
      rw [List.map_set]
      congr 1
      simp [List.get_eq_getElem, List.getElem_map, hg, List.getD_eq_getElem, h]

theorem getElem?_take_of_lt (l : List Int) (n i : Nat) (h : i < n) :
    (l.take n)[i]? = l[i]? := by
  rw [List.getElem?_take, if_pos h]

theorem jsModIdx_map_some_add (l : List Int) (i : Int) (k : Int)
    (h : i < 0 ∨ i.toNat < l.length) :
    jsModIdx (l.map some) i (jsAdd · k) = (modIdx l i (· + k)).map some :=
  jsModIdx_map_some l i (· + k) (jsAdd · k) (fun _ => rfl) h

theorem jsModIdx_map_some_sub (l : List Int) (i : Int) (k : Int)
    (h : i < 0 ∨ i.toNat < l.length) :
    jsModIdx (l.map some) i (jsAdd · (-k)) = (modIdx l i (· - k)).map some :=
  jsModIdx_map_some l i (· - k) (jsAdd · (-k))
    (fun x => by show some (x + -k) = some (x - k); congr 1) h

/-! ### Claim theorems -/

/-- C10: for every path and every `insert_node`, `remove_node`, `merge_node`
or `split_node` operation, a non-null result of the `path.ts` `Path.transform`
has the same length as the input path — only `move_node` changes depth. -/
theorem mainTransform_preserves_length (p : SlatePath) (op : PathOp) (aff : Affinity)
    (hmv : op.isMove = false) (q : SlatePath) (h : mainTransform p op aff = some q) :
    q.length = p.length := by
  cases op with
  | move_node a b => simp [PathOp.isMove] at hmv
  | insert_node opp =>
    unfold mainTransform at h
    simp only [PathOp.anchor, PathOp.isMove, PathOp.newP] at h
    split at h
    · cases h; rfl
    · split at h
      · cases h; rfl
      · simp only [Option.some.injEq] at h
        subst h
        split
        · exact modIdx_length ..
        · rfl
  | remove_node opp =>
    unfold mainTransform at h
    simp only [PathOp.anchor, PathOp.isMove, PathOp.newP] at h
    split at h
    · cases h; rfl
    · split at h
      · cases h; rfl
      · split at h
        · cases h
        · split at h
          · cases h; exact modIdx_length ..
          · cases h; rfl
  | merge_node opp pos =>
    unfold mainTransform at h
    simp only [PathOp.anchor, PathOp.isMove, PathOp.newP] at h
    split at h
    · cases h; rfl
    · split at h
      · cases h; rfl
      · split at h
        · cases h; exact modIdx_length ..
        · split at h
          · cases h; rw [modIdx_length, modIdx_length]
          · cases h; rfl
  | split_node opp pos =>
    unfold mainTransform at h
    simp only [PathOp.anchor, PathOp.isMove, PathOp.newP] at h
    split at h
    · cases h; rfl
    · split at h
      · cases h; rfl
      · split at h
        · split at h
          · cases h; exact modIdx_length ..
          · cases h; rfl
          · cases h
        · split at h
          · cases h; exact modIdx_length ..
          · split at h
            · cases h; rw [modIdx_length, modIdx_length]
            · cases h; rfl

/-- C10 witness: scenario 1 — `insert_node` at `[0,0]` maps `[0,1]` to
`[0,2]`, and the length is preserved. -/
theorem mainTransform_preserves_length_witness :
    (PathOp.insert_node [0, 0]).isMove = false ∧
    mainTransform [0, 1] (.insert_node [0, 0]) .forward = some [0, 2] ∧
    ([0, 2] : SlatePath).length = ([0, 1] : SlatePath).length :=
  ⟨by decide, by decide,
    mainTransform_preserves_length [0, 1] (.insert_node [0, 0]) .forward
      (by decide) [0, 2] (by decide)⟩

/-- C2 counterexample: the claim's condition list, read literally, says a path
that is *after* the merge anchor and not inside it is returned unchanged; at
`p = [1]`, `merge_node` at `[0]`, the code instead decrements to `[0]`
(the claim's "earlier sibling" direction is reversed: the code shifts paths
*after* the anchor, not before it). -/
theorem merge_node_claim_counterexample :
    mainTransform [1] (.merge_node [0] 1) .forward ≠ some [1] ∧
    mainTransform [1] (.merge_node [0] 1) .forward = some [0] := by
  constructor
  · decide
  · decide

/-- C2 (amended): for a `merge_node` operation at non-root path `opp` with
merge position `pos`, the `path.ts` `Path.transform` maps `p` to: `p` with the
index at depth `opp.length - 1` decremented when `p = opp` or when *`opp`* is
an earlier sibling of `p` or of one of `p`'s ancestors; `p` with that index
decremented and the index at depth `opp.length` increased by `pos` when `p`
is strictly inside the subtree rooted at `opp`; and `p` unchanged otherwise. -/
theorem merge_node_transform_cases (p opp : SlatePath) (pos : Int) (aff : Affinity)
    (hne : opp ≠ []) :
    (p = opp → mainTransform p (.merge_node opp pos) aff =
      some (p.set (opp.length - 1) (p.getD (opp.length - 1) 0 - 1))) ∧
    (earlierSibling opp p → mainTransform p (.merge_node opp pos) aff =
      some (p.set (opp.length - 1) (p.getD (opp.length - 1) 0 - 1))) ∧
    (p.take opp.length = opp ∧ opp.length < p.length →
      mainTransform p (.merge_node opp pos) aff =
        some ((p.set (opp.length - 1) (p.getD (opp.length - 1) 0 - 1)).set opp.length
          (p.getD opp.length 0 + pos))) ∧
    (¬p = opp ∧ ¬earlierSibling opp p ∧ ¬(p.take opp.length = opp ∧ opp.length < p.length) →
      mainTransform p (.merge_node opp pos) aff = some p) := by
  have hol : 1 ≤ opp.length := by
    cases opp with
    | nil => exact absurd rfl hne
    | cons a as => simp
  refine ⟨?_, ?_, ?_, ?_⟩
  · -- (i) p equals the merged-away node
    intro heq
    subst heq
    have hcd : commonDepth p p = p.length := commonDepth_self p
    have htn : ((p.length : Int) - 1).toNat = p.length - 1 := by omega
    rw [mainTransform]
    simp only [PathOp.anchor, PathOp.isMove, PathOp.newP, hcd]
    rw [if_neg (by simp)]
    rw [if_neg (by simp)]
    rw [if_pos (by simp)]
    rw [modIdx_eq_set _ _ _ (by omega) (by omega), htn]
  · -- (ii) op is an earlier sibling of p or of one of p's ancestors
    intro hsib
    obtain ⟨htake, hlt⟩ := hsib
    obtain ⟨x, hx, y, hy, hxy⟩ : ∃ x, opp[opp.length - 1]? = some x ∧
        ∃ y, p[opp.length - 1]? = some y ∧ x < y := by
      unfold jsLtOpt at hlt
      split at hlt
      · rename_i a b heqa heqb
        exact ⟨a, heqa, b, heqb, of_decide_eq_true hlt⟩
      · simp at hlt
    have hdp : opp.length - 1 < p.length := (List.getElem?_eq_some.mp hy).1
    have hcd : commonDepth p opp = opp.length - 1 := by
      have hge : opp.length - 1 ≤ commonDepth p opp :=
        commonDepth_ge_of_take_eq p opp (opp.length - 1) (by omega) (by omega) htake.symm
      by_contra hne2
      have hgt : opp.length - 1 < commonDepth p opp := by omega
      have h2 : p[opp.length - 1]? = opp[opp.length - 1]? := by
        rw [← getElem?_take_of_lt p (commonDepth p opp) (opp.length - 1) hgt,
          ← getElem?_take_of_lt opp (commonDepth p opp) (opp.length - 1) hgt,
          take_commonDepth_eq p opp]
      rw [hx, hy] at h2
      have : y = x := by injection h2
      omega
    have htn : ((opp.length : Int) - 1).toNat = opp.length - 1 := by omega
    rw [mainTransform]
    simp only [PathOp.anchor, PathOp.isMove, PathOp.newP, hcd]
    rw [if_neg (fun hcon => absurd hcon.1 (by omega))]
    rw [if_neg (fun hcon => hcon.2.1 ⟨by omega, hlt⟩)]
    rw [if_pos (Or.inr ⟨by omega, hlt⟩)]
    rw [modIdx_eq_set _ _ _ (by omega) (by omega), htn]
  · -- (iii) p strictly inside the merged-away subtree
    intro hins
    obtain ⟨htake, hlen⟩ := hins
    have hcd : commonDepth p opp = opp.length := by
      have hge : opp.length ≤ commonDepth p opp :=
        commonDepth_ge_of_take_eq p opp opp.length (by omega) (by omega)
          (by rw [htake, List.take_length])
      have hle := commonDepth_le_right p opp
      omega
    have htn : ((opp.length : Int) - 1).toNat = opp.length - 1 := by omega
    rw [mainTransform]
    simp only [PathOp.anchor, PathOp.isMove, PathOp.newP, hcd]
    rw [if_neg (fun hcon => absurd hcon.1 (by omega))]
    rw [if_neg (fun hcon => hcon.1 trivial)]
    rw [if_neg (by
      rintro (h1 | ⟨h2, _⟩)
      · omega
      · omega)]
    rw [if_pos trivial]
    rw [modIdx_eq_set p _ _ (by omega) (by omega), htn]
    rw [modIdx_eq_set _ _ _ (by omega) (by simp only [List.length_set]; omega)]
    have hts : ((opp.length : Int)).toNat = opp.length := by omega
    rw [hts]
    have hgd : (List.set p (opp.length - 1) (p.getD (opp.length - 1) 0 - 1)).getD
        opp.length 0 = p.getD opp.length 0 := by
      simp only [List.getD, List.get?_eq_getElem?,
        List.getElem?_set_ne (by omega : opp.length - 1 ≠ opp.length)]
    rw [hgd]
  · -- (iv) otherwise: unchanged
    intro hoth
    obtain ⟨h1, h2, h3⟩ := hoth
    by_cases hgt : opp.length > p.length
    · rw [mainTransform]
      simp only [PathOp.anchor, PathOp.isMove, PathOp.newP]
      rw [if_pos ⟨hgt, Or.inl trivial⟩]
    · have hle : opp.length ≤ p.length := by omega
      have hA : ¬ commonDepth p opp = opp.length := by
        intro hcd
        have htk : p.take opp.length = opp := by
          have := take_commonDepth_eq p opp
          rw [hcd, List.take_length] at this
          exact this
        rcases Nat.lt_or_ge opp.length p.length with hlt | hge
        · exact h3 ⟨htk, hlt⟩
        · have : p.length = opp.length := by omega
          apply h1
          rw [← List.take_length (l := p), this, htk]
      have hB : ¬ ((commonDepth p opp : Int) = (opp.length : Int) - 1 ∧
          jsLtOpt opp[commonDepth p opp]? p[commonDepth p opp]? = true) := by
        rintro ⟨hb1, hb2⟩
        apply h2
        have hcdn : commonDepth p opp = opp.length - 1 := by omega
        refine ⟨?_, ?_⟩
        · rw [← hcdn]
          exact (take_commonDepth_eq p opp).symm
        · rw [← hcdn]
          exact hb2
      rw [mainTransform]
      simp only [PathOp.anchor, PathOp.isMove, PathOp.newP]
      rw [if_neg (fun hcon => absurd hcon.1 (by omega))]
      rw [if_pos ⟨hA, hB, trivial⟩]

/-- C2 witness: `merge_node` at `[0]` is an earlier sibling of `[1]`, which is
decremented to `[0]`. -/
theorem merge_node_transform_cases_witness :
    earlierSibling [0] [1] ∧
    mainTransform [1] (.merge_node [0] 3) .forward = some [0] := by
  refine ⟨by decide, ?_⟩
  have h := (merge_node_transform_cases [1] [0] 3 .forward (by decide)).2.1 (by decide)
  rw [h]
  decide

/-- C5: evaluation at the failing input.  For `move_node` with `newPath` a
strict descendant of the old path (`[0]` → `[0,1]`), the `path.ts` transform
returns the path unchanged as the claim states, but the `part_000` copy
splices the destination in and returns `[0,1]`: its guard compares
`commonDepth(op, newOp)` against `newOp.length` (newPath an ancestor of the
old path) instead of `op.length`, contradicting its own comment. -/
theorem partTransform_move_into_own_subtree_eval :
    partTransform [0] (.move_node [0] [0, 1]) .forward = some [some 0, some 1] ∧
    mainTransform [0] (.move_node [0] [0, 1]) .forward = some [0] := by
  constructor
  · decide
  · decide

/-- C6: evaluation at the failing input.  `Path.previous` of `path.ts`
decrements the last index as the claim states, but the `part_000` copy writes
the last index back unchanged (`out[path.length - 1] = last` instead of
`last - 1`), returning `[1]` for input `[1]` — contradicting its own doc
comment and its first-child guard. -/
theorem partPrevious_missing_decrement_eval :
    partPrevious [1] = some [1] ∧ mainPrevious [1] = some [0] := by
  constructor
  · decide
  · decide

/-- C7 counterexample: the claimed result `{start: 6, end: 10, text: "earth"}`
is not what `normalizeStringDiff` returns on `"hello world"` with
`{start: 0, end: 11, text: "hello earth"}`. -/
theorem normalizeStringDiff_hello_world_claim_false :
    normalizeStringDiff ("hello world".toList)
      ⟨0, 11, "hello earth".toList⟩ ≠ some ⟨6, 10, "earth".toList⟩ := by
  decide

/-- C7 (amended): the common prefix `"hello "` (length 6) and the empty common
suffix are stripped, giving `{start: 6, end: 11, text: "earth"}` — the `end`
stays 11, not 10, since the whole removed span `"world"` must be replaced. -/
theorem normalizeStringDiff_hello_world :
    normalizeStringDiff ("hello world".toList)
      ⟨0, 11, "hello earth".toList⟩ = some ⟨6, 11, "earth".toList⟩ := by
  decide

/-- C9 counterexample: the two `Path.transform` copies disagree on
`merge_node`: for path `[1,0]` and `merge_node` at `[0]` with position 1,
`path.ts` returns `[0,0]` while `part_000` returns `[0,1]` (its first merge
branch also fires for the earlier-sibling case and adds the position one
level deeper). -/
theorem transform_copies_differ_on_merge :
    (mainTransform [1, 0] (.merge_node [0] 1) .forward).map (fun q => q.map some) ≠
      partTransform [1, 0] (.merge_node [0] 1) .forward := by
  decide

/-- C9 (amended): the two `Path.transform` copies agree (as values, with
`path.ts` results injected into the `JSNum` representation) for every path,
affinity and operation of kind `insert_node`, `remove_node` or `split_node`;
they differ on `merge_node` and `move_node`. -/
theorem transform_copies_agree_insert_remove_split (p : SlatePath) (op : PathOp)
    (aff : Affinity) (hmv : op.isMove = false) (hmg : op.isMerge = false) :
    (mainTransform p op aff).map (fun q => q.map some) = partTransform p op aff := by
  cases op with
  | move_node a b => simp [PathOp.isMove] at hmv
  | merge_node a b => simp [PathOp.isMerge] at hmg
  | insert_node opp =>
    rw [mainTransform, partTransform]
    simp only [PathOp.anchor, PathOp.isMove, PathOp.newP, eq_self_iff_true, true_or,
      or_true, and_true, true_and]
    split_ifs <;>
      first
        | rfl
        | (rw [jsModIdx_map_some_add _ _ _ (by omega)]; rfl)
        | tauto
  | remove_node opp =>
    rw [mainTransform, partTransform]
    simp only [PathOp.anchor, PathOp.isMove, PathOp.newP, eq_self_iff_true, true_or,
      or_true, and_true, true_and]
    split_ifs <;>
      first
        | rfl
        | (rw [jsModIdx_map_some_sub _ _ _ (by omega)]; rfl)
        | tauto
  | split_node opp pos =>
    have hcle := commonDepth_le_left p opp
    have hcre := commonDepth_le_right p opp
    cases aff <;>
    · rw [mainTransform, partTransform]
      simp only [PathOp.anchor, PathOp.isMove, PathOp.newP, eq_self_iff_true, true_or,
        or_true, and_true, true_and]
      split_ifs <;>
        first
          | rfl
          | (rw [jsModIdx_map_some_add _ _ _ (by omega)]; rfl)
          | (rw [jsModIdx_map_some_add _ _ _ (by omega),
                jsModIdx_map_some_sub _ _ _ (by rw [modIdx_length]; omega)]; rfl)
          | tauto
          | (exfalso; omega)

/-- C9 witness: the agreement instantiated at scenario 1's input. -/
theorem transform_copies_agree_insert_remove_split_witness :
    (mainTransform [0, 1] (.insert_node [0, 0]) .forward).map (fun q => q.map some) =
      partTransform [0, 1] (.insert_node [0, 0]) .forward :=
  transform_copies_agree_insert_remove_split [0, 1] (.insert_node [0, 0]) .forward
    (by decide) (by decide)

/-- `Path.equals` is reflexive. -/
theorem pathEquals_refl : ∀ p : SlatePath, pathEquals p p = true := by
  intro p
  induction p with
  | nil => rfl
  | cons a as ih => simp [pathEquals, ih]

/-- C4: `Point.transform` (part_001) through a `split_node` at the point's own
non-root leaf path: `null` when the split sits exactly at the offset with null
affinity; the point moves to the next sibling path with the offset reduced by
the split position when the split is before the offset (or at it with forward
affinity); otherwise the point is unchanged. -/
theorem pointTransform_split_cases (pt : SlatePoint) (pos : Int) (aff : Affinity)
    (hne : pt.path ≠ []) :
    (pos = pt.offset ∧ aff = .null →
      pointTransform pt (.structural (.split_node pt.path pos)) aff = .ok none) ∧
    (pos < pt.offset ∨ (pos = pt.offset ∧ aff = .forward) →
      pointTransform pt (.structural (.split_node pt.path pos)) aff =
        .ok (some ⟨pt.path.dropLast ++ [pt.path.getD (pt.path.length - 1) 0 + 1],
          pt.offset - pos⟩)) ∧
    (¬(pos = pt.offset ∧ aff = .null) ∧ ¬(pos < pt.offset ∨ (pos = pt.offset ∧ aff = .forward)) →
      pointTransform pt (.structural (.split_node pt.path pos)) aff = .ok (some pt)) := by
  have hlen : ¬ pt.path.length = 0 := by
    cases hp : pt.path with
    | nil => exact absurd hp hne
    | cons a as => simp [hp]
  have hnext : mainNext pt.path = some (pt.path.dropLast ++ [pt.path.getD (pt.path.length - 1) 0 + 1]) := by
    rw [mainNext, if_neg hlen]
  refine ⟨?_, ?_, ?_⟩
  · intro h
    rw [pointTransform]
    simp only [PointOp.opPath, PathOp.anchor, pathEquals_refl, if_true]
    rw [if_pos h]
  · intro h
    have h1 : ¬(pos = pt.offset ∧ aff = .null) := by
      rcases h with h | ⟨h, ha⟩
      · rintro ⟨he, _⟩; omega
      · rintro ⟨_, hn⟩; rw [ha] at hn; cases hn
    rw [pointTransform]
    simp only [PointOp.opPath, PathOp.anchor, pathEquals_refl, if_true]
    rw [if_neg h1, if_pos h, hnext]
  · rintro ⟨h1, h2⟩
    rw [pointTransform]
    simp only [PointOp.opPath, PathOp.anchor, pathEquals_refl, if_true]
    rw [if_neg h1, if_neg h2]

/-- C4 witness: scenario 3 — point `{path:[0], offset:5}` through `split_node`
at `{path:[0], position:3}` with forward affinity gives `{path:[1], offset:2}`. -/
theorem pointTransform_split_cases_witness :
    pointTransform ⟨[0], 5⟩ (.structural (.split_node [0] 3)) .forward =
      .ok (some ⟨[1], 2⟩) := by
  have h := (pointTransform_split_cases ⟨[0], 5⟩ 3 .forward (by decide)).2.1
    (Or.inl (by decide))
  rw [h]
  decide

/-- C3: `transformTextDiff` through a `split_node` on the diff's own non-root
leaf path: at/before the diff's start the diff moves to the next sibling path
with both bounds shifted left by the split position; strictly inside the
diff's span the diff is truncated to end at the split position (the source's
known clamping bug); past the span (and past the start) it is unchanged. -/
theorem transformTextDiff_split_cases (d : TextDiff) (pos : Int) (hne : d.path ≠ []) :
    (pos ≤ d.diff.start →
      transformTextDiff d (.structural (.split_node d.path pos)) =
        .ok (some ⟨d.id, d.path.dropLast ++ [d.path.getD (d.path.length - 1) 0 + 1],
          ⟨d.diff.start - pos, d.diff.stop - pos, d.diff.text⟩⟩)) ∧
    (d.diff.start < pos ∧ pos < d.diff.stop →
      transformTextDiff d (.structural (.split_node d.path pos)) =
        .ok (some ⟨d.id, d.path, ⟨d.diff.start, pos, d.diff.text⟩⟩)) ∧
    (d.diff.stop ≤ pos ∧ d.diff.start < pos →
      transformTextDiff d (.structural (.split_node d.path pos)) = .ok (some d)) := by
  have hlen : ¬ d.path.length = 0 := by
    cases hp : d.path with
    | nil => exact absurd hp hne
    | cons a as => simp [hp]
  have hnext : mainNext d.path =
      some (d.path.dropLast ++ [d.path.getD (d.path.length - 1) 0 + 1]) := by
    rw [mainNext, if_neg hlen]
  refine ⟨?_, ?_, ?_⟩
  · intro h
    rw [transformTextDiff]
    simp only [PointOp.opPath, PathOp.anchor, pathEquals_refl, if_true]
    rw [if_pos h, hnext]
  · rintro ⟨h1, h2⟩
    rw [transformTextDiff]
    simp only [PointOp.opPath, PathOp.anchor, pathEquals_refl, if_true]
    rw [if_neg (by omega), if_pos h2]
    have : min pos d.diff.stop = pos := by omega
    rw [this]
  · rintro ⟨h1, h2⟩
    rw [transformTextDiff]
    simp only [PointOp.opPath, PathOp.anchor, pathEquals_refl, if_true]
    rw [if_neg (by omega), if_neg (by omega)]

/-- C3 witness: a diff `[2,4)` on `[0]` split at position 1 moves to `[1]`
with bounds `[1,3)`. -/
theorem transformTextDiff_split_cases_witness :
    transformTextDiff ⟨7, [0], ⟨2, 4, ['x']⟩⟩ (.structural (.split_node [0] 1)) =
      .ok (some ⟨7, [1], ⟨1, 3, ['x']⟩⟩) := by
  have h := (transformTextDiff_split_cases ⟨7, [0], ⟨2, 4, ['x']⟩⟩ 1 (by decide)).1
    (by decide)
  rw [h]
  decide

/-- C8: for a collapsed range, any non-null result of `transformPendingRange`
(and of `normalizeRange`) is collapsed, with the focus exactly the rebased
anchor — the focus is never rebased independently. -/
theorem pending_range_collapsed_mirrors_anchor (pendingDiffs : List TextDiff)
    (ed : EditorModel) (r : SlateRange) (op : PointOp)
    (hc : rangeIsCollapsed r = true) :
    (∀ r', transformPendingRange pendingDiffs r op = .ok (some r') →
      r'.focus = r'.anchor ∧
        transformPendingPoint pendingDiffs r.anchor op = .ok (some r'.anchor)) ∧
    (∀ r', normalizeRange ed r = some r' →
      r'.focus = r'.anchor ∧ normalizePoint ed r.anchor = some r'.anchor) := by
  constructor
  · intro r' h
    rw [transformPendingRange] at h
    cases ha : transformPendingPoint pendingDiffs r.anchor op with
    | exc => rw [ha] at h; cases h
    | ok o =>
      cases o with
      | none => rw [ha] at h; cases h
      | some a =>
        rw [ha] at h
        simp only [hc, if_true, ExcOr.ok.injEq, Option.some.injEq] at h
        subst h
        exact ⟨rfl, rfl⟩
  · intro r' h
    rw [normalizeRange] at h
    cases ha : normalizePoint ed r.anchor with
    | none => rw [ha] at h; cases h
    | some a =>
      rw [ha] at h
      simp only [hc, if_true, Option.some.injEq] at h
      subst h
      exact ⟨rfl, rfl⟩

/-- C8 witness: a collapsed range at `{path:[0], offset:0}` through an
`insert_text` on another leaf, and through `normalizeRange` on a one-leaf
editor model. -/
theorem pending_range_collapsed_mirrors_anchor_witness :
    ((⟨⟨[0], 0⟩, ⟨[0], 0⟩⟩ : SlateRange).focus = (⟨⟨[0], 0⟩, ⟨[0], 0⟩⟩ : SlateRange).anchor ∧
      transformPendingPoint [] (⟨⟨[0], 0⟩, ⟨[0], 0⟩⟩ : SlateRange).anchor
        (.insert_text [1] 0 []) = .ok (some (⟨⟨[0], 0⟩, ⟨[0], 0⟩⟩ : SlateRange).anchor)) ∧
    ((⟨⟨[0], 0⟩, ⟨[0], 0⟩⟩ : SlateRange).focus = (⟨⟨[0], 0⟩, ⟨[0], 0⟩⟩ : SlateRange).anchor ∧
      normalizePoint ⟨fun _ => true, fun _ => some [], fun _ => some [], fun _ => none⟩
        (⟨⟨[0], 0⟩, ⟨[0], 0⟩⟩ : SlateRange).anchor =
          some (⟨⟨[0], 0⟩, ⟨[0], 0⟩⟩ : SlateRange).anchor) :=
  ⟨(pending_range_collapsed_mirrors_anchor [] ⟨fun _ => true, fun _ => some [], fun _ => some [], fun _ => none⟩
      ⟨⟨[0], 0⟩, ⟨[0], 0⟩⟩ (.insert_text [1] 0 []) (by decide)).1 ⟨⟨[0], 0⟩, ⟨[0], 0⟩⟩ (by decide),
   (pending_range_collapsed_mirrors_anchor [] ⟨fun _ => true, fun _ => some [], fun _ => some [], fun _ => none⟩
      ⟨⟨[0], 0⟩, ⟨[0], 0⟩⟩ (.insert_text [1] 0 []) (by decide)).2 ⟨⟨[0], 0⟩, ⟨[0], 0⟩⟩ (by decide)⟩


/-! ### String-diff lemmas -/

/-- For non-negative bounds `jsSlice` is take-then-drop. -/
theorem jsSlice_nonneg (l : List Char) (s e : Int) (hs : 0 ≤ s) (he : 0 ≤ e) :
    jsSlice l s e = (l.take e.toNat).drop s.toNat := by
  unfold jsSlice
  dsimp only
  rw [if_neg (by omega), if_neg (by omega)]
  rcases le_or_lt e (l.length : Int) with h | h
  · rcases le_or_lt s (l.length : Int) with h2 | h2
    · rw [(by omega : (min e (l.length : Int)).toNat = e.toNat),
        (by omega : (min s (l.length : Int)).toNat = s.toNat)]
    · rw [(by omega : (min s (l.length:Int)).toNat = l.length)]
      rw [List.drop_eq_nil_of_le (by rw [List.length_take]; omega)]
      rw [List.drop_eq_nil_of_le (by rw [List.length_take]; omega)]
  · rw [(by omega : (min e (l.length:Int)).toNat = l.length)]
    rw [List.take_of_length_le (le_refl _), List.take_of_length_le (by omega)]
    rcases le_or_lt s (l.length : Int) with h2 | h2
    · rw [(by omega : (min s (l.length:Int)).toNat = s.toNat)]
    · rw [(by omega : (min s (l.length:Int)).toNat = l.length)]
      rw [List.drop_eq_nil_of_le (le_refl _), List.drop_eq_nil_of_le (by omega)]

theorem jsSliceFrom_nonneg (l : List Char) (s : Int) (hs : 0 ≤ s) :
    jsSliceFrom l s = l.drop s.toNat := by
  rw [jsSliceFrom, jsSlice_nonneg l s _ hs (by omega)]
  rw [(by omega : ((l.length : Int)).toNat = l.length), List.take_length]

/-- `applyStringDiff` with a single well-formed diff. -/
theorem applyStringDiff_one (t : List Char) (d : StringDiff)
    (h0 : 0 ≤ d.start) (h1 : 0 ≤ d.stop) :
    applyStringDiff t [d] = t.take d.start.toNat ++ d.text ++ t.drop d.stop.toNat := by
  show jsSlice t 0 d.start ++ d.text ++ jsSliceFrom t d.stop = _
  rw [jsSlice_nonneg t 0 d.start (by omega) h0, jsSliceFrom_nonneg t d.stop h1]
  simp

theorem applyStringDiff_two (t : List Char) (a b : StringDiff) :
    applyStringDiff t [a, b] = applyStringDiff (applyStringDiff t [a]) [b] := rfl


theorem lcp_le_left : ∀ a b : List Char, longestCommonPrefixLength a b ≤ a.length := by
  intro a
  induction a with
  | nil => intro b; cases b <;> simp [longestCommonPrefixLength]
  | cons x xs ih =>
    intro b
    cases b with
    | nil => simp [longestCommonPrefixLength]
    | cons y ys =>
      simp only [longestCommonPrefixLength]
      split
      · simpa using ih ys
      · simp

theorem lcp_le_right : ∀ a b : List Char, longestCommonPrefixLength a b ≤ b.length := by
  intro a
  induction a with
  | nil => intro b; cases b <;> simp [longestCommonPrefixLength]
  | cons x xs ih =>
    intro b
    cases b with
    | nil => simp [longestCommonPrefixLength]
    | cons y ys =>
      simp only [longestCommonPrefixLength]
      split
      · simpa using ih ys
      · simp

theorem take_lcp_eq : ∀ a b : List Char,
    a.take (longestCommonPrefixLength a b) = b.take (longestCommonPrefixLength a b) := by
  intro a
  induction a with
  | nil => intro b; cases b <;> simp [longestCommonPrefixLength]
  | cons x xs ih =>
    intro b
    cases b with
    | nil => simp [longestCommonPrefixLength]
    | cons y ys =>
      simp only [longestCommonPrefixLength]
      split
      · rename_i h; simp [List.take_succ_cons, h, ih ys]
      · simp

theorem cpc_le_cap : ∀ (a b : List Char) (c : Nat), commonPrefixCapped a b c ≤ c := by
  intro a
  induction a with
  | nil => intro b c; cases b <;> cases c <;> simp [commonPrefixCapped]
  | cons x xs ih =>
    intro b c
    cases b with
    | nil => cases c <;> simp [commonPrefixCapped]
    | cons y ys =>
      cases c with
      | zero => simp [commonPrefixCapped]
      | succ m =>
        simp only [commonPrefixCapped]
        split
        · have := ih ys m; omega
        · simp

theorem cpc_le_left : ∀ (a b : List Char) (c : Nat), commonPrefixCapped a b c ≤ a.length := by
  intro a
  induction a with
  | nil => intro b c; cases b <;> cases c <;> simp [commonPrefixCapped]
  | cons x xs ih =>
    intro b c
    cases b with
    | nil => cases c <;> simp [commonPrefixCapped]
    | cons y ys =>
      cases c with
      | zero => simp [commonPrefixCapped]
      | succ m =>
        simp only [commonPrefixCapped]
        split
        · have := ih ys m; simp; omega
        · simp

theorem cpc_le_right : ∀ (a b : List Char) (c : Nat), commonPrefixCapped a b c ≤ b.length := by
  intro a
  induction a with
  | nil => intro b c; cases b <;> cases c <;> simp [commonPrefixCapped]
  | cons x xs ih =>
    intro b c
    cases b with
    | nil => cases c <;> simp [commonPrefixCapped]
    | cons y ys =>
      cases c with
      | zero => simp [commonPrefixCapped]
      | succ m =>
        simp only [commonPrefixCapped]
        split
        · have := ih ys m; simp; omega
        · simp

theorem take_cpc_eq : ∀ (a b : List Char) (c : Nat),
    a.take (commonPrefixCapped a b c) = b.take (commonPrefixCapped a b c) := by
  intro a
  induction a with
  | nil => intro b c; cases b <;> cases c <;> simp [commonPrefixCapped]
  | cons x xs ih =>
    intro b c
    cases b with
    | nil => cases c <;> simp [commonPrefixCapped]
    | cons y ys =>
      cases c with
      | zero => simp [commonPrefixCapped]
      | succ m =>
        simp only [commonPrefixCapped]
        split
        · rename_i h; simp [List.take_succ_cons, h, ih ys m]
        · simp

/-- The last `sl` characters of the two strings agree, where
`sl = longestCommonSuffixLength s t mx`. -/
theorem lcs_suffix_eq (s t : List Char) (mx : Nat) :
    s.drop (s.length - longestCommonSuffixLength s t mx) =
      t.drop (t.length - longestCommonSuffixLength s t mx) := by
  unfold longestCommonSuffixLength
  have h1 := take_cpc_eq s.reverse t.reverse mx
  have h2 : (s.reverse.take (commonPrefixCapped s.reverse t.reverse mx)).reverse =
      (t.reverse.take (commonPrefixCapped s.reverse t.reverse mx)).reverse := by rw [h1]
  rw [List.take_reverse, List.take_reverse, List.reverse_reverse, List.reverse_reverse] at h2
  exact h2

theorem lcs_le_cap (s t : List Char) (mx : Nat) :
    longestCommonSuffixLength s t mx ≤ mx := cpc_le_cap s.reverse t.reverse mx

theorem lcs_le_left (s t : List Char) (mx : Nat) :
    longestCommonSuffixLength s t mx ≤ s.length := by
  have := cpc_le_left s.reverse t.reverse mx
  simpa using this

theorem take_prefix_slice (t : List Char) (st sp pl : Nat) (hpl : pl ≤ sp - st) :
    t.take (st + pl) = t.take st ++ ((t.take sp).drop st).take pl := by
  rw [List.take_add]
  congr 1
  rw [List.drop_take sp st t, List.take_take]
  congr 1
  omega

theorem slice_suffix_drop (t : List Char) (st sp sl : Nat) (hst : st ≤ sp)
    (hsl : sl ≤ sp - st) :
    ((t.take sp).drop st).drop ((sp - st) - sl) = (t.drop (sp - sl)).take sl := by
  rw [List.drop_take sp st t, List.drop_take]
  rw [List.drop_drop]
  congr 1
  · omega
  · congr 1
    omega

theorem drop_split_at (t : List Char) (sp sl : Nat) (hsl : sl ≤ sp) :
    t.drop (sp - sl) = (t.drop (sp - sl)).take sl ++ t.drop sp := by
  conv_lhs => rw [← List.take_append_drop sl (t.drop (sp - sl))]
  rw [List.drop_drop]
  congr 2
  omega

theorem take_mid_drop (text : List Char) (pl sl : Nat) (h : pl + sl ≤ text.length) :
    text.take pl ++ (text.take (text.length - sl)).drop pl ++ text.drop (text.length - sl) =
      text := by
  conv_rhs => rw [← List.take_append_drop (text.length - sl) text]
  congr 1
  conv_rhs => rw [← List.take_append_drop pl (text.take (text.length - sl))]
  rw [List.take_take]
  congr 2
  omega

theorem take_slice_drop (t : List Char) (st sp : Nat) (hst : st ≤ sp) (hsp : sp ≤ t.length) :
    t.take st ++ (t.take sp).drop st ++ t.drop sp = t := by
  conv_rhs => rw [← List.take_append_drop sp t]
  congr 1
  rw [List.drop_take sp st t, ← List.take_add]
  congr 1
  omega

theorem take_before (t u w : List Char) (i k : Nat) (hk : k ≤ i) (hi : i ≤ t.length) :
    (t.take i ++ u ++ w).take k = t.take k := by
  rw [List.append_assoc, List.take_append_of_le_length (by rw [List.length_take]; omega),
    List.take_take]
  congr 1
  omega

theorem drop_after (t u : List Char) (i j r : Nat) (hi : i ≤ t.length) :
    (t.take i ++ u ++ t.drop j).drop (i + u.length + r) = t.drop (j + r) := by
  rw [List.append_assoc]
  rw [(by rw [List.length_take]; omega : i + u.length + r = (t.take i).length + (u.length + r))]
  rw [List.drop_append, List.drop_append, List.drop_drop]

/-- `normalizeStringDiff` preserves the applied result, and returns `null`
only on a no-op. -/
theorem normalizeStringDiff_spec (t : List Char) (d : StringDiff)
    (h0 : 0 ≤ d.start) (h1 : d.start ≤ d.stop) (h2 : d.stop ≤ (t.length : Int)) :
    (∀ m, normalizeStringDiff t d = some m →
      applyStringDiff t [m] = applyStringDiff t [d]) ∧
    (normalizeStringDiff t d = none → applyStringDiff t [d] = t) := by
  -- abbreviations
  set st := d.start.toNat with hst
  set sp := d.stop.toNat with hsp
  have hstsp : st ≤ sp := by omega
  have hspt : sp ≤ t.length := by omega
  set R : List Char := (t.take sp).drop st with hR
  have hRlen : R.length = sp - st := by
    rw [hR, List.length_drop, List.length_take]
    omega
  set pl := longestCommonPrefixLength R d.text with hpl
  have hplR : pl ≤ R.length := lcp_le_left R d.text
  have hplT : pl ≤ d.text.length := lcp_le_right R d.text
  have htakepl : R.take pl = d.text.take pl := take_lcp_eq R d.text
  set mx := min (R.length - pl) (d.text.length - pl) with hmx
  set sl := longestCommonSuffixLength R d.text mx with hsl
  have hslmx : sl ≤ mx := lcs_le_cap R d.text mx
  have hsuffix : R.drop (R.length - sl) = d.text.drop (d.text.length - sl) :=
    lcs_suffix_eq R d.text mx
  have hplslR : pl + sl ≤ R.length := by omega
  have hplslT : pl + sl ≤ d.text.length := by omega
  -- normal form of normalizeStringDiff
  have hnf : normalizeStringDiff t d =
      (if d.start + (pl : Int) = d.stop - (sl : Int) ∧
          ((d.text.take (d.text.length - sl)).drop pl).length = 0 then none
       else some ⟨d.start + (pl : Int), d.stop - (sl : Int),
         (d.text.take (d.text.length - sl)).drop pl⟩) := by
    rw [normalizeStringDiff]
    dsimp only
    rw [jsSlice_nonneg t d.start d.stop h0 (by omega), ← hst, ← hsp, ← hR, ← hpl, ← hmx, ← hsl]
    rw [jsSlice_nonneg d.text (pl : Int) ((d.text.length - sl : Nat) : Int) (by omega) (by omega)]
    simp only [Int.toNat_natCast]
  -- the two branches
  constructor
  · intro m hm
    rw [hnf] at hm
    split at hm
    · cases hm
    · rename_i hcond
      cases hm
      rw [applyStringDiff_one t _ (by dsimp only; omega) (by dsimp only; omega)]
      rw [applyStringDiff_one t d h0 (by omega)]
      dsimp only
      rw [(by omega : (d.start + (pl : Int)).toNat = st + pl),
          (by omega : (d.stop - (sl : Int)).toNat = sp - sl),
          ← hst, ← hsp]
      rw [take_prefix_slice t st sp pl (by omega), ← hR, htakepl]
      rw [drop_split_at t sp sl (by omega)]
      have hsfx : (t.drop (sp - sl)).take sl = d.text.drop (d.text.length - sl) := by
        rw [← slice_suffix_drop t st sp sl hstsp (by omega), ← hR,
          (by omega : sp - st - sl = R.length - sl), hsuffix]
      rw [hsfx]
      conv_rhs => rw [← take_mid_drop d.text pl sl hplslT]
      simp only [List.append_assoc]
  · intro hm
    rw [hnf] at hm
    split at hm
    · rename_i hcond
      obtain ⟨hc1, hc2⟩ := hcond
      have hmidlen : d.text.length = pl + sl := by
        rw [List.length_drop, List.length_take] at hc2
        omega
      have hRlen2 : R.length = pl + sl := by omega
      have hdropR : R.drop pl = d.text.drop pl := by
        have ha : R.drop pl = R.drop (R.length - sl) := by
          congr 1
          omega
        rw [ha, hsuffix]
        congr 1
        omega
      have hRT : R = d.text := by
        rw [← List.take_append_drop pl R, htakepl, hdropR, List.take_append_drop]
      rw [applyStringDiff_one t d h0 (by omega), ← hst, ← hsp, ← hRT, hR]
      exact take_slice_drop t st sp hstsp hspt
    · cases hm

theorem applyStringDiff_one_length (t : List Char) (a : StringDiff)
    (h0 : 0 ≤ a.start) (h1 : a.start ≤ a.stop) (h2 : a.stop ≤ (t.length : Int)) :
    ((applyStringDiff t [a]).length : Int) =
      (t.length : Int) + a.text.length - (a.stop - a.start) := by
  rw [applyStringDiff_one t a h0 (by omega)]
  simp only [List.length_append, List.length_take, List.length_drop]
  push_cast
  omega

/-- The un-normalized merged diff reproduces applying `a` then `b`: its text
is cut out of the combined result between the combined left edge `S` and the
combined right edge `SE`, and the untouched prefix/suffix of `targetText`
supply the rest. -/
theorem mergeRaw_apply (t : List Char) (a b : StringDiff)
    (ha0 : 0 ≤ a.start) (ha1 : a.start ≤ a.stop) (ha2 : a.stop ≤ (t.length : Int))
    (hb0 : 0 ≤ b.start) (hb1 : b.start ≤ b.stop)
    (hb2 : b.stop ≤ ((applyStringDiff t [a]).length : Int))
    (S E SE : Int)
    (hS : S = min a.start b.start)
    (hE : E = max a.stop (b.stop - (a.text.length : Int) + (a.stop - a.start)))
    (hSE : SE = max (b.start + (b.text.length : Int))
        (a.start + (a.text.length : Int) +
          (if b.start < a.start + (a.text.length : Int) then (b.text.length : Int) else 0) -
          max 0 (min (a.start + (a.text.length : Int)) b.stop - b.start))) :
    applyStringDiff t [⟨S, E, jsSlice (applyStringDiff t [a, b]) S SE⟩] =
      applyStringDiff t [a, b] := by
  set t1 := applyStringDiff t [a] with ht1
  have hT1 : t1 = t.take a.start.toNat ++ a.text ++ t.drop a.stop.toNat :=
    applyStringDiff_one t a ha0 (by omega)
  have happlied : applyStringDiff t [a, b] =
      t1.take b.start.toNat ++ b.text ++ t1.drop b.stop.toNat := by
    rw [applyStringDiff_two, applyStringDiff_one t1 b hb0 (by omega)]
  set applied := applyStringDiff t [a, b] with happ
  have ht1len : (t1.length : Int) =
      (t.length : Int) + a.text.length - (a.stop - a.start) := by
    rw [hT1]
    simp only [List.length_append, List.length_take, List.length_drop]
    push_cast
    omega
  have happlen : (applied.length : Int) =
      (t1.length : Int) + b.text.length - (b.stop - b.start) := by
    rw [happlied]
    simp only [List.length_append, List.length_take, List.length_drop]
    push_cast
    omega
  -- the combined right edge in t1 coordinates
  set E1 : Int := max (a.start + (a.text.length : Int)) b.stop with hE1
  have hG1 : SE = E1 + ((b.text.length : Int) - (b.stop - b.start)) := by
    rw [hSE, hE1]
    split_ifs <;> omega
  have hG2 : E + ((a.text.length : Int) - (a.stop - a.start)) = E1 := by
    rw [hE, hE1]
    omega
  have hEa : a.stop ≤ E := by rw [hE]; omega
  have hEt : E ≤ (t.length : Int) := by rw [hE]; omega
  have hE1t1 : E1 ≤ (t1.length : Int) := by rw [hE1]; omega
  have hS0 : 0 ≤ S := by rw [hS]; omega
  have hSE0 : 0 ≤ SE := by omega
  have hSEapp : SE ≤ (applied.length : Int) := by omega
  have hSSE : S ≤ SE := by rw [hS]; omega
  -- P1: the prefix up to S is untouched
  have hP1a : t1.take S.toNat = t.take S.toNat := by
    rw [hT1]
    exact take_before t a.text (t.drop a.stop.toNat) a.start.toNat S.toNat
      (by omega) (by omega)
  have hP1b : applied.take S.toNat = t1.take S.toNat := by
    rw [happlied]
    exact take_before t1 b.text (t1.drop b.stop.toNat) b.start.toNat S.toNat
      (by omega) (by omega)
  -- P2: the suffix from E (in t) equals the suffix from SE (in applied)
  have hP2a : t1.drop E1.toNat = t.drop E.toNat := by
    rw [hT1]
    rw [(by omega :
      E1.toNat = a.start.toNat + a.text.length + (E.toNat - a.stop.toNat))]
    rw [drop_after t a.text a.start.toNat a.stop.toNat (E.toNat - a.stop.toNat) (by omega)]
    congr 1
    omega
  have hP2b : applied.drop SE.toNat = t1.drop E1.toNat := by
    rw [happlied]
    rw [(by omega :
      SE.toNat = b.start.toNat + b.text.length + (E1.toNat - b.stop.toNat))]
    rw [drop_after t1 b.text b.start.toNat b.stop.toNat (E1.toNat - b.stop.toNat) (by omega)]
    congr 1
    omega
  -- assemble
  rw [applyStringDiff_one t _ (by dsimp only; omega) (by dsimp only; omega)]
  dsimp only
  rw [jsSlice_nonneg applied S SE hS0 hSE0]
  rw [← hP1a, ← hP1b, ← hP2a, ← hP2b]
  exact take_slice_drop applied S.toNat SE.toNat (by omega) (by omega)

/-- C1: if `mergeStringDiffs(t, a, b)` returns a diff `m` then applying `m`
to `t` equals applying `a` then `b`; it returns `null` only when applying
`a` then `b` gives back `t` — for `a` well-formed against `t` and `b`
well-formed against `applyStringDiff(t, a)`. -/
theorem mergeStringDiffs_correct (t : List Char) (a b : StringDiff)
    (ha0 : 0 ≤ a.start) (ha1 : a.start ≤ a.stop) (ha2 : a.stop ≤ (t.length : Int))
    (hb0 : 0 ≤ b.start) (hb1 : b.start ≤ b.stop)
    (hb2 : b.stop ≤ ((applyStringDiff t [a]).length : Int)) :
    (∀ m, mergeStringDiffs t a b = some m →
      applyStringDiff t [m] = applyStringDiff t [a, b]) ∧
    (mergeStringDiffs t a b = none → applyStringDiff t [a, b] = t) := by
  have ht1len := applyStringDiff_one_length t a ha0 ha1 ha2
  have hmr := mergeRaw_apply t a b ha0 ha1 ha2 hb0 hb1 hb2 _ _ _ rfl rfl rfl
  have hnf : mergeStringDiffs t a b = normalizeStringDiff t
      ⟨min a.start b.start,
        max a.stop (b.stop - (a.text.length : Int) + (a.stop - a.start)),
        jsSlice (applyStringDiff t [a, b]) (min a.start b.start)
          (max (b.start + (b.text.length : Int))
            (a.start + (a.text.length : Int) +
              (if b.start < a.start + (a.text.length : Int) then (b.text.length : Int) else 0) -
              max 0 (min (a.start + (a.text.length : Int)) b.stop - b.start)))⟩ := by
    rw [mergeStringDiffs]
  have hns := normalizeStringDiff_spec t
      ⟨min a.start b.start,
        max a.stop (b.stop - (a.text.length : Int) + (a.stop - a.start)),
        jsSlice (applyStringDiff t [a, b]) (min a.start b.start)
          (max (b.start + (b.text.length : Int))
            (a.start + (a.text.length : Int) +
              (if b.start < a.start + (a.text.length : Int) then (b.text.length : Int) else 0) -
              max 0 (min (a.start + (a.text.length : Int)) b.stop - b.start)))⟩
      (by dsimp only; omega) (by dsimp only; omega) (by dsimp only; omega)
  constructor
  · intro m hm
    rw [hnf] at hm
    rw [hns.1 m hm, hmr]
  · intro hm
    rw [hnf] at hm
    rw [← hmr]
    exact hns.2 hm

/-- C1 witness: scenario 5 — merging insert "X" at 1 with insert "Y" at 2
over `"abc"` yields the single diff `{start:1, end:1, text:"XY"}`, which
reproduces `"aXYbc"`. -/
theorem mergeStringDiffs_correct_witness :
    mergeStringDiffs ("abc".toList) ⟨1, 1, "X".toList⟩ ⟨2, 2, "Y".toList⟩ =
      some ⟨1, 1, "XY".toList⟩ ∧
    applyStringDiff ("abc".toList) [⟨1, 1, "XY".toList⟩] =
      applyStringDiff ("abc".toList) [⟨1, 1, "X".toList⟩, ⟨2, 2, "Y".toList⟩] :=
  ⟨by decide,
    (mergeStringDiffs_correct ("abc".toList) ⟨1, 1, "X".toList⟩ ⟨2, 2, "Y".toList⟩
      (by decide) (by decide) (by decide) (by decide) (by decide) (by decide)).1
      ⟨1, 1, "XY".toList⟩ (by decide)⟩
